import Mathlib

/-!
Verification of the oplus IDD schema core: identifier derivation,
detailed-type resolution and value deserialization of field descriptors
(oplus/epm/field_descriptor.py), and record registration and the
link-resolution pass of the schema catalogue (oplus/idf/idd.py).

Strings are modelled on the ASCII fragment: Python str.lower and the regex
classes \w and \s are modelled over ASCII (every input exercised by the
properties is ASCII), and the unidecode transliteration utility, external
to the core, is modelled as the identity, which it is on ASCII input.
-/

/-- ASCII model of Python str.lower, applied character-wise:
maps A-Z to a-z and leaves every other character unchanged. -/
def pyLowerChar (c : Char) : Char :=
  match c with
  | 'A' => 'a'
  | 'B' => 'b'
  | 'C' => 'c'
  | 'D' => 'd'
  | 'E' => 'e'
  | 'F' => 'f'
  | 'G' => 'g'
  | 'H' => 'h'
  | 'I' => 'i'
  | 'J' => 'j'
  | 'K' => 'k'
  | 'L' => 'l'
  | 'M' => 'm'
  | 'N' => 'n'
  | 'O' => 'o'
  | 'P' => 'p'
  | 'Q' => 'q'
  | 'R' => 'r'
  | 'S' => 's'
  | 'T' => 't'
  | 'U' => 'u'
  | 'V' => 'v'
  | 'W' => 'w'
  | 'X' => 'x'
  | 'Y' => 'y'
  | 'Z' => 'z'
  | c => c

/-- Python str.lower on a whole string. -/
def pyLowerStr (s : String) : String :=
  String.mk (s.data.map pyLowerChar)

/-- The lower-case ASCII letters. -/
def asciiLowerLetters : List Char :=
  ['a', 'b', 'c', 'd', 'e', 'f', 'g', 'h', 'i', 'j', 'k', 'l', 'm',
   'n', 'o', 'p', 'q', 'r', 's', 't', 'u', 'v', 'w', 'x', 'y', 'z']

theorem pyLowerChar_eq_or (c : Char) :
    pyLowerChar c = c ∨ pyLowerChar c ∈ asciiLowerLetters := by
  unfold pyLowerChar
  split <;> first
    | exact Or.inl rfl
    | exact Or.inr (by decide)

theorem pyLowerChar_of_lower {c : Char} (h : c ∈ asciiLowerLetters) :
    pyLowerChar c = c := by
  fin_cases h <;> rfl

theorem pyLowerChar_idem (c : Char) :
    pyLowerChar (pyLowerChar c) = pyLowerChar c := by
  rcases pyLowerChar_eq_or c with h | h
  · rw [h, h]
  · rw [pyLowerChar_of_lower h]

/-- ASCII model of the regex word-character class \w (the source patterns
also use [^\w\d], which denotes the same set as [^\w]). -/
def isWordChar (c : Char) : Bool := c.isAlphanum || c = '_'

/-- Replaces every maximal run of characters satisfying p by the single
character r, the shape shared by the three re.sub calls of the source
(not_python_var_pattern, multiple_underscores_pattern, spaces_pattern).
The flag records whether the previous character was inside a run. -/
def collapseRunsAux (p : Char → Bool) (r : Char) : Bool → List Char → List Char
  | _, [] => []
  | inRun, c :: cs =>
    if p c then
      if inRun then collapseRunsAux p r true cs
      else r :: collapseRunsAux p r true cs
    else c :: collapseRunsAux p r false cs

def collapseRuns (p : Char → Bool) (r : Char) (l : List Char) : List Char :=
  collapseRunsAux p r false l

theorem mem_collapseRunsAux {p : Char → Bool} {r : Char} {c : Char} :
    ∀ {b : Bool} {l : List Char}, c ∈ collapseRunsAux p r b l →
      c = r ∨ (c ∈ l ∧ p c = false) := by
  intro b l
  induction l generalizing b with
  | nil => intro h; simp [collapseRunsAux] at h
  | cons d ds ih =>
    intro h
    by_cases hd : p d = true
    · simp only [collapseRunsAux, hd, if_true] at h
      cases b with
      | true =>
        rcases ih h with h1 | ⟨h2, h3⟩
        · exact Or.inl h1
        · exact Or.inr ⟨List.mem_cons_of_mem _ h2, h3⟩
      | false =>
        rcases List.mem_cons.mp h with h1 | h1
        · exact Or.inl h1
        · rcases ih h1 with h2 | ⟨h2, h3⟩
          · exact Or.inl h2
          · exact Or.inr ⟨List.mem_cons_of_mem _ h2, h3⟩
    · simp only [collapseRunsAux, hd, if_false] at h
      rcases List.mem_cons.mp h with h1 | h1
      · subst h1
        exact Or.inr ⟨List.mem_cons_self _ _, by simpa using hd⟩
      · rcases ih h1 with h2 | ⟨h2, h3⟩
        · exact Or.inl h2
        · exact Or.inr ⟨List.mem_cons_of_mem _ h2, h3⟩

theorem collapseRunsAux_eq_self {p : Char → Bool} {r : Char} {l : List Char}
    (h : ∀ c ∈ l, p c = false) : ∀ b, collapseRunsAux p r b l = l := by
  induction l with
  | nil => intro b; rfl
  | cons d ds ih =>
    intro b
    have hd : p d = false := h d (List.mem_cons_self _ _)
    simp only [collapseRunsAux, hd, Bool.false_eq_true, if_false]
    rw [ih (fun c hc => h c (List.mem_cons_of_mem _ hc))]

theorem collapseRunsAux_idem {p : Char → Bool} {r : Char} (hr : p r = true)
    {l : List Char} :
    ∀ b, collapseRunsAux p r b (collapseRunsAux p r b l) = collapseRunsAux p r b l := by
  induction l with
  | nil => intro b; rfl
  | cons d ds ih =>
    intro b
    by_cases hd : p d = true
    · cases b with
      | true => simp only [collapseRunsAux, hd, if_true]; exact ih true
      | false =>
        simp only [collapseRunsAux, hd, if_true, Bool.false_eq_true, if_false, hr]
        rw [ih true]
    · simp only [collapseRunsAux, hd, if_false]
      simp only [collapseRunsAux, hd, Bool.false_eq_true, if_false]
      rw [ih false]

theorem map_fixed {l : List Char} {f : Char → Char}
    (h : ∀ c ∈ l, f c = c) : l.map f = l := by
  induction l with
  | nil => rfl
  | cons d ds ih =>
    simp only [List.map_cons, h d (List.mem_cons_self _ _),
      ih (fun c hc => h c (List.mem_cons_of_mem _ hc))]

/-- Embeds var_name_to_ref (field_descriptor.py, lines 13-15): lower-case
the name, substitute the pattern ((^[^\w]+)|([^\w\d]+)) by "_" (every
maximal run of non-word characters, a leading one included, becomes one
underscore), then substitute [_]{2,} by "_" (collapse underscore runs). -/
def var_name_to_ref (name : String) : String :=
  String.mk (collapseRuns (fun c => decide (c = '_')) '_'
    (collapseRuns (fun c => !isWordChar c) '_' (name.data.map pyLowerChar)))

theorem var_name_to_ref_idem (s : String) :
    var_name_to_ref (var_name_to_ref s) = var_name_to_ref s := by
  unfold var_name_to_ref collapseRuns
  congr 1
  set inner := collapseRunsAux (fun c => !isWordChar c) '_' false (s.data.map pyLowerChar)
    with hinner
  set out := collapseRunsAux (fun c => decide (c = '_')) '_' false inner with hout
  have hmem : ∀ c ∈ out, isWordChar c = true ∧ pyLowerChar c = c := by
    intro c hc
    rcases mem_collapseRunsAux hc with h1 | ⟨h1, _⟩
    · subst h1; exact ⟨by decide, by decide⟩
    · rcases mem_collapseRunsAux h1 with h2 | ⟨h2, h3⟩
      · subst h2; exact ⟨by decide, by decide⟩
      · refine ⟨by simpa using h3, ?_⟩
        rcases List.mem_map.mp h2 with ⟨c0, _, rfl⟩
        exact pyLowerChar_idem c0
  have h1 : out.map pyLowerChar = out := map_fixed (fun c hc => (hmem c hc).2)
  have h2 : collapseRunsAux (fun c => !isWordChar c) '_' false (out.map pyLowerChar) = out := by
    rw [h1]
    exact collapseRunsAux_eq_self
      (fun c hc => by simp [(hmem c hc).1]) false
  rw [h2, hout]
  exact collapseRunsAux_idem (by decide) false

theorem var_name_to_ref_case_insensitive (s t : String)
    (h : pyLowerStr s = pyLowerStr t) : var_name_to_ref s = var_name_to_ref t := by
  have hd : s.data.map pyLowerChar = t.data.map pyLowerChar :=
    congrArg String.data h
  unfold var_name_to_ref
  rw [hd]

/-- C2 counterexample: as stated the claim is false — deriving a ref from
"Zone  Name!!" yields "zone_name_" (the trailing run of "!" collapses to a
trailing underscore), not "zone_name", while "zone_name" yields itself. -/
theorem C2_counterexample :
    var_name_to_ref "Zone  Name!!" = "zone_name_" ∧
    var_name_to_ref "zone_name" = "zone_name" ∧
    ("zone_name_" : String) ≠ "zone_name" := by
  refine ⟨by decide, by decide, by decide⟩

/-- C2 (amended): identifier derivation is deterministic (it is a pure
function) and idempotent; names differing only by case, or only by the
length of their non-word separator runs, collapse to the same ref; but a
trailing separator run leaves a trailing underscore: "Zone  Name!!" and
"Zone Name!" both yield "zone_name_", while "zone_name" yields
"zone_name". -/
theorem C2_ref_derivation :
    (∀ s : String, var_name_to_ref (var_name_to_ref s) = var_name_to_ref s) ∧
    (∀ s t : String, pyLowerStr s = pyLowerStr t →
      var_name_to_ref s = var_name_to_ref t) ∧
    var_name_to_ref "Zone  Name!!" = "zone_name_" ∧
    var_name_to_ref "Zone Name!" = "zone_name_" ∧
    var_name_to_ref "zone_name" = "zone_name" := by
  exact ⟨var_name_to_ref_idem, var_name_to_ref_case_insensitive,
    by decide, by decide, by decide⟩

theorem C2_ref_derivation_witness :
    var_name_to_ref (var_name_to_ref "Zone  Name!!") = var_name_to_ref "Zone  Name!!" ∧
    var_name_to_ref "ZONE  name!!" = var_name_to_ref "Zone  Name!!" := by
  exact ⟨C2_ref_derivation.1 "Zone  Name!!",
    C2_ref_derivation.2.1 "ZONE  name!!" "Zone  Name!!" (by decide)⟩

/-! ### Tag store and field descriptor (oplus/epm/field_descriptor.py) -/

/-- The tag store: a Python dict from tag name to list of tag values,
insertion-ordered (self.tags in the source). -/
abbrev Tags := List (String × List String)

/-- Python: ref in self.tags. -/
def hasTag (tags : Tags) (ref : String) : Bool :=
  tags.any (fun p => p.1 = ref)

/-- Reading a tag's value list; absent names give [] (the semantics of
self.tags.get(ref, []) — direct indexing sites that can raise are
modelled at their call sites). -/
def getTag (tags : Tags) (ref : String) : List String :=
  match tags.find? (fun p => p.1 = ref) with
  | some p => p.2
  | none => []

/-- The Python exceptions the model distinguishes. The carried messages
are tags for the exception sites of the source, not verbatim renderings. -/
inductive PyErr where
  | fieldValidation (msg : String)
  | valueError (msg : String)
  | indexError
  | keyError
  | assertionError (msg : String)
  | runtimeError (msg : String)
deriving DecidableEq, Repr

deriving instance DecidableEq for Except

/-- Embeds the state of an epm FieldDescriptor: __init__ stores the index,
the basic type and the optional name; the back-reference to the owning
table descriptor is used only to build error-message text and is not
modelled. -/
structure FieldDescriptor where
  index : Nat
  basic_type : String
  name : Option String
  tags : Tags
deriving DecidableEq, Repr

/-- The derived identifier (lines 30-31): None when no name was given. -/
def FieldDescriptor.ref (fd : FieldDescriptor) : Option String :=
  fd.name.map var_name_to_ref

/-- __init__ (lines 24-34): a basic type token other than "A" or "N" is
rejected with ValueError; otherwise the descriptor starts with an empty
tag store. -/
def mkFieldDescriptor (index : Nat) (field_basic_type : String)
    (name : Option String) : Except PyErr FieldDescriptor :=
  if field_basic_type = "A" ∨ field_basic_type = "N" then
    .ok ⟨index, field_basic_type, name, []⟩
  else .error (.valueError "Unknown field type.")

/-- append_tag (lines 116-124): registers the name with an empty value
list if new, then appends the value when one is given. -/
def appendTag (tags : Tags) (ref : String) (value : Option String) : Tags :=
  let tags1 := if hasTag tags ref then tags else tags ++ [(ref, [])]
  match value with
  | none => tags1
  | some v => tags1.map (fun p => if p.1 = ref then (p.1, p.2 ++ [v]) else p)

def FieldDescriptor.append_tag (fd : FieldDescriptor) (ref : String)
    (value : Option String) : FieldDescriptor :=
  ⟨fd.index, fd.basic_type, fd.name, appendTag fd.tags ref value⟩

/-- detailed_type (lines 126-153): the priority cascade reconciling the
two historical annotation styles. The source memoizes the result in
_detailed_type; the tag store is immutable once parsing is done, so the
memo is a pure cache and the model recomputes. A "type" tag registered
without any value makes self.tags["type"][0] fail with IndexError. -/
def detailed_type (fd : FieldDescriptor) : Except PyErr String :=
  if hasTag fd.tags "reference" || hasTag fd.tags "reference-class-name" then
    .ok "reference"
  else if hasTag fd.tags "type" then
    match getTag fd.tags "type" with
    | v :: _ => .ok (pyLowerStr v)
    | [] => .error .indexError
  else if hasTag fd.tags "key" then .ok "choice"
  else if hasTag fd.tags "object-list" then .ok "object-list"
  else if hasTag fd.tags "external-list" then .ok "external-list"
  else if fd.basic_type = "A" then .ok "alpha"
  else if fd.basic_type = "N" then .ok "real"
  else .error (.valueError "Cant find detailed type.")

/-- C3: a field whose tag store contains a "reference" tag or a
"reference-class-name" tag resolves to Reference whatever other tags are
present — in particular a field carrying both a "reference" tag and a
"type" tag resolves to Reference, never to the "type" value. -/
theorem C3_reference_priority (fd : FieldDescriptor)
    (h : hasTag fd.tags "reference" = true ∨
      hasTag fd.tags "reference-class-name" = true) :
    detailed_type fd = .ok "reference" := by
  unfold detailed_type
  rcases h with h | h <;> simp [h]

theorem C3_reference_priority_witness :
    detailed_type ⟨0, "A", none, [("reference", ["ZoneNames"]), ("type", ["integer"])]⟩ =
      .ok "reference" :=
  C3_reference_priority _ (Or.inl (by decide))

/-- C10 counterexample: a field descriptor constructed with basic type "A"
and then given a valueless "type" tag (append_tag with no value, which a
bare tag line produces) makes detailed_type fail on indexing the empty
value list — detailed_type does not return a value for every constructed
field descriptor, although the final cascade branch is indeed not the one
that fails. -/
theorem C10_counterexample :
    mkFieldDescriptor 0 "A" none = .ok ⟨0, "A", none, []⟩ ∧
    detailed_type ((⟨0, "A", none, []⟩ : FieldDescriptor).append_tag "type" none) =
      .error .indexError := by
  exact ⟨by decide, by decide⟩

/-- C10 (amended): construction accepts exactly the basic type tokens "A"
and "N"; for every field descriptor carrying one of these the final
failure branch ("Cant find detailed type") of the cascade is unreachable;
and detailed_type returns a value provided a present "type" tag carries
at least one value (a valueless "type" tag fails on indexing its first
value, a distinct failure from the final branch). -/
theorem C10_detailed_type_total :
    (∀ i bt nm, (mkFieldDescriptor i bt nm).isOk = true ↔ (bt = "A" ∨ bt = "N")) ∧
    (∀ fd : FieldDescriptor, fd.basic_type = "A" ∨ fd.basic_type = "N" →
      detailed_type fd ≠ .error (.valueError "Cant find detailed type.")) ∧
    (∀ fd : FieldDescriptor, fd.basic_type = "A" ∨ fd.basic_type = "N" →
      (hasTag fd.tags "type" = true → getTag fd.tags "type" ≠ []) →
      (detailed_type fd).isOk = true) := by
  refine ⟨?_, ?_, ?_⟩
  · intro i bt nm
    unfold mkFieldDescriptor
    by_cases h : bt = "A" ∨ bt = "N" <;> simp [h, Except.isOk, Except.toBool]
  · intro fd h
    unfold detailed_type
    repeat' split
    all_goals simp_all [Except.isOk, Except.toBool]
  · intro fd h htype
    unfold detailed_type
    repeat' split
    all_goals simp_all [Except.isOk, Except.toBool]

theorem C10_detailed_type_total_witness :
    ((mkFieldDescriptor 0 "Q" none).isOk = true ↔ ("Q" = "A" ∨ "Q" = "N")) ∧
    detailed_type ⟨0, "N", none, []⟩ ≠ .error (.valueError "Cant find detailed type.") ∧
    (detailed_type ⟨0, "N", none, []⟩).isOk = true := by
  exact ⟨C10_detailed_type_total.1 0 "Q" none,
    C10_detailed_type_total.2.1 _ (Or.inr rfl),
    C10_detailed_type_total.2.2 _ (Or.inr rfl) (by decide)⟩

/-! ### Value deserialization (field_descriptor.py, deserialize) -/

/-- The whitespace characters of str.strip and of the regex class \s
(ASCII fragment): space, tab, newline, carriage return, vertical tab,
form feed. -/
def pyIsSpace (c : Char) : Bool :=
  c = ' ' || c = '\t' || c = '\n' || c = '\r' ||
    c = Char.ofNat 11 || c = Char.ofNat 12

/-- str.strip: drop leading and trailing whitespace. -/
def pyStrip (l : List Char) : List Char :=
  ((l.dropWhile pyIsSpace).reverse.dropWhile pyIsSpace).reverse

/-- The normalization prefix of deserialize (lines 43-49): strip, then
substitute every whitespace run by a single space. -/
def normalizeChars (l : List Char) : List Char :=
  collapseRuns pyIsSpace ' ' (pyStrip l)

/-- The Python values deserialize handles: absent, text, int, float.
Floats are modelled as exact rationals: Python among them evaluates a
literal to the nearest IEEE double, whose repr round-trips, so on the
decimal literals exercised here the exact reading is numerically
faithful. -/
inductive PyVal where
  | pnone
  | pstr (s : String)
  | pint (n : Int)
  | preal (q : ℚ)
deriving DecidableEq, Repr

/-- The result of deserialize: a plain value, a RecordHook (reference
anchor: the reference class names plus the value), or a Link (forward
link: one object-list category name plus the value). -/
inductive DeserVal where
  | dval (v : PyVal)
  | dhook (references : List String) (value : PyVal)
  | dlink (reference : String) (value : PyVal)
deriving DecidableEq, Repr

def digitChar0 (d : Nat) : Char :=
  match d with
  | 0 => '0'
  | 1 => '1'
  | 2 => '2'
  | 3 => '3'
  | 4 => '4'
  | 5 => '5'
  | 6 => '6'
  | 7 => '7'
  | 8 => '8'
  | _ => '9'

def digitVal (c : Char) : Nat :=
  match c with
  | '0' => 0
  | '1' => 1
  | '2' => 2
  | '3' => 3
  | '4' => 4
  | '5' => 5
  | '6' => 6
  | '7' => 7
  | '8' => 8
  | '9' => 9
  | _ => 0

/-- Value of a digit string, most significant digit first. -/
def parseNat (cs : List Char) : Nat :=
  cs.foldl (fun a c => a * 10 + digitVal c) 0

/-- Python int(str) restricted to the grammar the numeric round trip
exercises: an optional sign then decimal digits. (Python additionally
strips whitespace and accepts underscore group separators and non-ASCII
digits; none arise on the whitespace-normalized ASCII inputs used here.) -/
def pyIntOfChars : List Char → Option Int
  | [] => none
  | c :: cs =>
    if c = '-' then
      if cs ≠ [] ∧ cs.all Char.isDigit then some (-(parseNat cs : Int)) else none
    else if c = '+' then
      if cs ≠ [] ∧ cs.all Char.isDigit then some ((parseNat cs : Int)) else none
    else
      if (c :: cs).all Char.isDigit then some ((parseNat (c :: cs) : Int)) else none

/-- Splits at the first exponent marker e or E. -/
def splitOnExp : List Char → List Char × Option (List Char)
  | [] => ([], none)
  | c :: cs =>
    if c = 'e' ∨ c = 'E' then ([], some cs)
    else
      let p := splitOnExp cs
      (c :: p.1, p.2)

/-- Mantissa of a Python float literal: digits with an optional decimal
point, at least one digit overall, read as an exact rational. -/
def parseMantissa (cs : List Char) : Option ℚ :=
  let intPart := cs.takeWhile Char.isDigit
  let rest := cs.dropWhile Char.isDigit
  match rest with
  | [] => if intPart = [] then none else some ((parseNat intPart : ℚ))
  | '.' :: frac =>
    if frac.all Char.isDigit ∧ (intPart ≠ [] ∨ frac ≠ []) then
      some ((parseNat intPart : ℚ) + (parseNat frac : ℚ) / (10 : ℚ) ^ frac.length)
    else none
  | _ => none

/-- Exponent part: an optional sign then digits. -/
def parseExp : List Char → Option Int
  | [] => none
  | c :: cs =>
    if c = '-' then
      if cs ≠ [] ∧ cs.all Char.isDigit then some (-(parseNat cs : Int)) else none
    else if c = '+' then
      if cs ≠ [] ∧ cs.all Char.isDigit then some ((parseNat cs : Int)) else none
    else if (c :: cs).all Char.isDigit then some ((parseNat (c :: cs) : Int)) else none

/-- Python float(str) restricted to decimal literals with optional sign,
decimal point and exponent, with the exact rational value (the inf and
nan forms are not modelled). -/
def pyFloatOfChars (cs : List Char) : Option ℚ :=
  let sb : Bool × List Char :=
    match cs with
    | [] => (false, [])
    | c :: r =>
      if c = '-' then (true, r) else if c = '+' then (false, r) else (false, c :: r)
  let me := splitOnExp sb.2
  match parseMantissa me.1 with
  | none => none
  | some m =>
    match me.2 with
    | none => some (if sb.1 then -m else m)
    | some ecs =>
      match parseExp ecs with
      | none => none
      | some e =>
        some (if sb.1 then -(m * (10 : ℚ) ^ e) else m * (10 : ℚ) ^ e)

/-- Python int(value) at line 72: parses text, passes an int through,
truncates a float toward zero; None raises there (unreachable — the None
input returns earlier), modelled as a failure. -/
def pyInt : PyVal → Option Int
  | .pstr s => pyIntOfChars s.data
  | .pint n => some n
  | .preal q => some (q.num / (q.den : Int))
  | .pnone => none

/-- Python float(value) at line 79. -/
def pyFloat : PyVal → Option ℚ
  | .pstr s => pyFloatOfChars s.data
  | .pint n => some ((n : ℚ))
  | .preal q => some q
  | .pnone => none

/-- The typed tail of deserialize (lines 64-106), reached with the
prepared value: numeric kinds with sentinel pass-through, the plain
string kinds, reference (RecordHook of the "reference" tag values, read
through .get with default []), object-list (Link of the first
"object-list" tag value, read by direct indexing, so an absent tag gives
KeyError and an empty value list IndexError), and the defensive final
RuntimeError. -/
def deserializeTyped (fd : FieldDescriptor) (value : PyVal) : Except PyErr DeserVal :=
  match detailed_type fd with
  | .error e => .error e
  | .ok dt =>
    if dt = "integer" ∨ dt = "real" then
      if value = .pstr "autocalculate" ∨ value = .pstr "autosize" ∨
          value = .pstr "useweatherfile" then
        .ok (.dval value)
      else if dt = "integer" then
        match pyInt value with
        | some n => .ok (.dval (.pint n))
        | none => .error (.fieldValidation "Couldnt parse to integer.")
      else
        match pyFloat value with
        | some q => .ok (.dval (.preal q))
        | none => .error (.fieldValidation "Couldnt parse to float.")
    else if dt = "alpha" ∨ dt = "choice" ∨ dt = "node" ∨ dt = "external-list" then
      match value with
      | .pstr _ => .ok (.dval value)
      | _ => .error (.fieldValidation "Value must be a string.")
    else if dt = "reference" then
      .ok (.dhook (getTag fd.tags "reference") value)
    else if dt = "object-list" then
      if hasTag fd.tags "object-list" then
        match getTag fd.tags "object-list" with
        | r :: _ => .ok (.dlink r value)
        | [] => .error .indexError
      else .error .keyError
    else .error (.runtimeError "should not be here")

/-- deserialize (lines 37-106): None passes through; a text value is
stripped and whitespace-collapsed, empty text becomes None, the text is
transliterated to ASCII (identity here; see the module comment),
lower-cased unless a "retaincase" tag is present, and rejected once it
reaches 100 characters; then the typed branches run. -/
def deserialize (fd : FieldDescriptor) (value : PyVal) : Except PyErr DeserVal :=
  match value with
  | .pnone => .ok (.dval .pnone)
  | .pstr s =>
    let s1 := normalizeChars s.data
    if s1 = [] then .ok (.dval .pnone)
    else
      let s2 := if hasTag fd.tags "retaincase" then s1 else s1.map pyLowerChar
      if 100 ≤ s2.length then
        .error (.fieldValidation "Field has more than 100 characters which is the limit.")
      else deserializeTyped fd (.pstr (String.mk s2))
  | v => deserializeTyped fd v

theorem hasTag_of_getTag_ne {tags : Tags} {r : String}
    (h : getTag tags r ≠ []) : hasTag tags r = true := by
  unfold getTag at h
  unfold hasTag
  rcases hf : tags.find? (fun p => decide (p.1 = r)) with _ | p
  · rw [hf] at h; exact absurd rfl h
  · have hp : p ∈ tags := List.mem_of_find?_eq_some hf
    rw [List.any_eq_true]
    exact ⟨p, hp, by simpa using List.find?_some hf⟩

/-- C4: deserialize maps a null input to null for every field descriptor,
of every detailed type; and maps a text input that is empty after
whitespace normalization (collapse runs of whitespace to one space and
trim) to null as well. -/
theorem C4_null_deserialize (fd : FieldDescriptor) (s : String)
    (h : normalizeChars s.data = []) :
    deserialize fd .pnone = .ok (.dval .pnone) ∧
    deserialize fd (.pstr s) = .ok (.dval .pnone) := by
  exact ⟨rfl, by simp [deserialize, h]⟩

theorem C4_null_deserialize_witness :
    deserialize ⟨0, "A", none, []⟩ .pnone = .ok (.dval .pnone) ∧
    deserialize ⟨0, "A", none, []⟩ (.pstr "  \t ") = .ok (.dval .pnone) :=
  C4_null_deserialize ⟨0, "A", none, []⟩ "  \t " (by decide)

/-- C6: the 100-character hard limit. Text whose normalized form reaches
100 characters fails with the length validation error for every field
descriptor of every detailed type (the check precedes the typed
branches); an already-normalized 99-character string deserializes
successfully on a field of detailed type alpha (lower-cased unless
"retaincase" is present). -/
theorem C6_length_limit :
    (∀ (fd : FieldDescriptor) (s : String), 100 ≤ (normalizeChars s.data).length →
      deserialize fd (.pstr s) =
        .error (.fieldValidation "Field has more than 100 characters which is the limit.")) ∧
    (∀ (fd : FieldDescriptor) (s : String), detailed_type fd = .ok "alpha" →
      normalizeChars s.data = s.data → s.data.length = 99 →
      deserialize fd (.pstr s) = .ok (.dval (.pstr (String.mk
        (if hasTag fd.tags "retaincase" then s.data else s.data.map pyLowerChar))))) := by
  constructor
  · intro fd s h
    have hne : normalizeChars s.data ≠ [] := by
      intro he
      rw [he] at h
      simp at h
    have hlen : 100 ≤ (if hasTag fd.tags "retaincase" = true then normalizeChars s.data
        else (normalizeChars s.data).map pyLowerChar).length := by
      by_cases hrc : hasTag fd.tags "retaincase" = true <;>
        simp [hrc, List.length_map, h]
    simp only [deserialize]
    rw [if_neg hne, if_pos hlen]
  · intro fd s hdt hnorm hlen99
    have hne : normalizeChars s.data ≠ [] := by
      rw [hnorm]
      intro he
      rw [he] at hlen99
      simp at hlen99
    have hlen : ¬(100 ≤ (if hasTag fd.tags "retaincase" = true then normalizeChars s.data
        else (normalizeChars s.data).map pyLowerChar).length) := by
      by_cases hrc : hasTag fd.tags "retaincase" = true <;>
        simp [hrc, List.length_map, hnorm, hlen99]
    simp only [deserialize]
    rw [if_neg hne, if_neg hlen, hnorm]
    simp only [deserializeTyped, hdt]
    simp

theorem C6_length_limit_witness :
    deserialize ⟨0, "A", none, []⟩ (.pstr (String.mk (List.replicate 100 'a'))) =
      .error (.fieldValidation "Field has more than 100 characters which is the limit.") ∧
    deserialize ⟨0, "A", none, []⟩ (.pstr (String.mk (List.replicate 99 'a'))) =
      .ok (.dval (.pstr (String.mk
        (if hasTag ([] : Tags) "retaincase" then (String.mk (List.replicate 99 'a')).data
         else (String.mk (List.replicate 99 'a')).data.map pyLowerChar)))) :=
  ⟨C6_length_limit.1 ⟨0, "A", none, []⟩ (String.mk (List.replicate 100 'a')) (by decide),
   C6_length_limit.2 ⟨0, "A", none, []⟩ (String.mk (List.replicate 99 'a'))
     (by decide) (by decide) (by decide)⟩

/-- C9: on a field of detailed type object-list, deserialize of non-null
text (non-empty once normalized, within the length limit) returns a Link
built from exactly the first value of the "object-list" tag and the
prepared text; the remaining tag values (quantified here) do not
influence the result. -/
theorem C9_object_list_link (fd : FieldDescriptor) (s : String) (v : String)
    (rest : List String)
    (hdt : detailed_type fd = .ok "object-list")
    (htag : getTag fd.tags "object-list" = v :: rest)
    (hne : normalizeChars s.data ≠ [])
    (hlen : (normalizeChars s.data).length < 100) :
    deserialize fd (.pstr s) = .ok (.dlink v (.pstr (String.mk
      (if hasTag fd.tags "retaincase" then normalizeChars s.data
       else (normalizeChars s.data).map pyLowerChar)))) := by
  have hlen2 : ¬(100 ≤ (if hasTag fd.tags "retaincase" = true then normalizeChars s.data
      else (normalizeChars s.data).map pyLowerChar).length) := by
    by_cases hrc : hasTag fd.tags "retaincase" = true <;>
      simp [hrc, List.length_map] <;> omega
  have htg : hasTag fd.tags "object-list" = true :=
    hasTag_of_getTag_ne (by rw [htag]; exact List.cons_ne_nil _ _)
  simp only [deserialize]
  rw [if_neg hne, if_neg hlen2]
  simp only [deserializeTyped, hdt]
  simp [htg, htag]

theorem C9_object_list_link_witness :
    deserialize ⟨0, "A", none, [("object-list", ["CategoryA", "CategoryB"])]⟩
      (.pstr "Some Value") = .ok (.dlink "CategoryA" (.pstr (String.mk
        (if hasTag ([("object-list", ["CategoryA", "CategoryB"])] : Tags) "retaincase"
         then normalizeChars ("Some Value" : String).data
         else (normalizeChars ("Some Value" : String).data).map pyLowerChar)))) :=
  C9_object_list_link ⟨0, "A", none, [("object-list", ["CategoryA", "CategoryB"])]⟩
    "Some Value" "CategoryA" ["CategoryB"] (by decide) (by decide) (by decide) (by decide)

/-! ### Decimal rendering and parsing for the numeric round trip -/

theorem mk_data (l : List Char) : (String.mk l).data = l := rfl

def decDigits : List Char :=
  ['0', '1', '2', '3', '4', '5', '6', '7', '8', '9']

theorem digitChar0_mem (d : Nat) : digitChar0 d ∈ decDigits := by
  unfold digitChar0
  split <;> decide

theorem digitVal_digitChar0 {d : Nat} (h : d < 10) :
    digitVal (digitChar0 d) = d := by
  interval_cases d <;> decide

theorem decDigits_facts {c : Char} (h : c ∈ decDigits) :
    c.isDigit = true ∧ pyIsSpace c = false ∧ pyLowerChar c = c ∧
      c ≠ 'e' ∧ c ≠ 'E' ∧ c ≠ '-' ∧ c ≠ '+' ∧ c ≠ '.' := by
  fin_cases h <;> decide

/-- Decimal digits of n, most significant first; the fuel bounds the
number of divisions (n itself suffices). -/
def natRenderAux : Nat → Nat → List Char
  | 0, _ => []
  | fuel + 1, n =>
    if n = 0 then [] else natRenderAux fuel (n / 10) ++ [digitChar0 (n % 10)]

/-- Python str of a natural number (decimal, no sign). -/
def natRender (n : Nat) : List Char :=
  if n = 0 then ['0'] else natRenderAux n n

/-- Python str of an int: optional sign then digits. -/
def intRender (i : Int) : List Char :=
  if i < 0 then '-' :: natRender i.natAbs else natRender i.natAbs

theorem parseNat_append_digit (l : List Char) (c : Char) :
    parseNat (l ++ [c]) = parseNat l * 10 + digitVal c := by
  unfold parseNat
  rw [List.foldl_append]
  rfl

theorem natRenderAux_spec :
    ∀ fuel n, n ≤ fuel →
      parseNat (natRenderAux fuel n) = n ∧ ∀ c ∈ natRenderAux fuel n, c ∈ decDigits := by
  intro fuel
  induction fuel with
  | zero =>
    intro n hn
    have h0 : n = 0 := Nat.le_zero.mp hn
    subst h0
    exact ⟨rfl, by simp [natRenderAux]⟩
  | succ fuel ih =>
    intro n hn
    by_cases h0 : n = 0
    · subst h0
      exact ⟨rfl, by simp [natRenderAux]⟩
    · have hdiv : n / 10 ≤ fuel := by omega
      obtain ⟨ih1, ih2⟩ := ih (n / 10) hdiv
      constructor
      · simp only [natRenderAux]
        rw [if_neg h0, parseNat_append_digit, ih1,
          digitVal_digitChar0 (Nat.mod_lt _ (by norm_num))]
        omega
      · simp only [natRenderAux]
        rw [if_neg h0]
        intro c hc
        rcases List.mem_append.mp hc with hc | hc
        · exact ih2 c hc
        · rw [List.mem_singleton.mp hc]
          exact digitChar0_mem _

theorem natRender_spec (n : Nat) :
    parseNat (natRender n) = n ∧ natRender n ≠ [] ∧
      ∀ c ∈ natRender n, c ∈ decDigits := by
  by_cases h0 : n = 0
  · subst h0
    exact ⟨rfl, by decide, by decide⟩
  · obtain ⟨h1, h2⟩ := natRenderAux_spec n n le_rfl
    refine ⟨by simpa [natRender, h0] using h1, ?_, by simpa [natRender, h0] using h2⟩
    intro he
    rw [natRender, if_neg h0] at he
    rw [he] at h1
    exact h0 (by simpa [parseNat] using h1.symm)

theorem intRender_chars (n : Int) :
    intRender n ≠ [] ∧ ∀ c ∈ intRender n, c ∈ decDigits ∨ c = '-' := by
  obtain ⟨_, h2, h3⟩ := natRender_spec n.natAbs
  by_cases hn : n < 0
  · refine ⟨by simp [intRender, hn], ?_⟩
    intro c hc
    rw [intRender, if_pos hn] at hc
    rcases List.mem_cons.mp hc with hc | hc
    · exact Or.inr hc
    · exact Or.inl (h3 c hc)
  · refine ⟨by simpa [intRender, hn] using h2, ?_⟩
    intro c hc
    rw [intRender, if_neg hn] at hc
    exact Or.inl (h3 c hc)

theorem all_isDigit_of_decDigits {l : List Char} (h : ∀ c ∈ l, c ∈ decDigits) :
    l.all Char.isDigit = true :=
  List.all_eq_true.mpr (fun c hc => (decDigits_facts (h c hc)).1)

theorem pyIntOfChars_intRender (n : Int) :
    pyIntOfChars (intRender n) = some n := by
  obtain ⟨h1, h2, h3⟩ := natRender_spec n.natAbs
  by_cases hn : n < 0
  · rw [intRender, if_pos hn]
    have hall : (natRender n.natAbs).all Char.isDigit = true := all_isDigit_of_decDigits h3
    have hcast := Int.ofNat_natAbs_of_nonpos (le_of_lt hn)
    have habs : |n| = -n := abs_of_neg hn
    simp [pyIntOfChars, h2, hall, h1]
    omega
  · rw [intRender, if_neg hn]
    obtain ⟨c, cs, e⟩ := List.exists_cons_of_ne_nil h2
    have hcm := decDigits_facts (h3 c (by rw [e]; exact List.mem_cons_self _ _))
    have hall : (natRender n.natAbs).all Char.isDigit = true := all_isDigit_of_decDigits h3
    rw [e] at hall h1 ⊢
    have hcast := Int.natAbs_of_nonneg (not_lt.mp hn)
    have habs : |n| = n := abs_of_nonneg (not_lt.mp hn)
    simp [pyIntOfChars, hall, hcm.2.2.2.2.2.1, hcm.2.2.2.2.2.2.1, h1]
    omega

theorem dropWhile_eq_self_of {p : Char → Bool} {l : List Char}
    (h : ∀ c ∈ l, p c = false) : l.dropWhile p = l := by
  cases l with
  | nil => rfl
  | cons d ds =>
    exact List.dropWhile_cons_of_neg (by simp [h d (List.mem_cons_self _ _)])

theorem takeWhile_eq_self_of {p : Char → Bool} {l : List Char}
    (h : ∀ c ∈ l, p c = true) : l.takeWhile p = l := by
  induction l with
  | nil => rfl
  | cons d ds ih =>
    rw [List.takeWhile_cons_of_pos (h d (List.mem_cons_self _ _)),
      ih (fun c hc => h c (List.mem_cons_of_mem _ hc))]

theorem dropWhile_eq_nil_of {p : Char → Bool} {l : List Char}
    (h : ∀ c ∈ l, p c = true) : l.dropWhile p = [] := by
  induction l with
  | nil => rfl
  | cons d ds ih =>
    rw [List.dropWhile_cons_of_pos (h d (List.mem_cons_self _ _)),
      ih (fun c hc => h c (List.mem_cons_of_mem _ hc))]

theorem normalizeChars_eq_self {l : List Char}
    (h : ∀ c ∈ l, pyIsSpace c = false) : normalizeChars l = l := by
  unfold normalizeChars pyStrip collapseRuns
  rw [dropWhile_eq_self_of h,
    dropWhile_eq_self_of (fun c hc => h c (List.mem_reverse.mp hc)),
    List.reverse_reverse]
  exact collapseRunsAux_eq_self h false

theorem splitOnExp_no_exp {l : List Char} (h : ∀ c ∈ l, c ≠ 'e' ∧ c ≠ 'E') :
    splitOnExp l = (l, none) := by
  induction l with
  | nil => rfl
  | cons d ds ih =>
    have hd := h d (List.mem_cons_self _ _)
    simp only [splitOnExp]
    rw [if_neg (by tauto), ih (fun c hc => h c (List.mem_cons_of_mem _ hc))]

theorem parseMantissa_digits {l : List Char} (hne : l ≠ [])
    (h : ∀ c ∈ l, Char.isDigit c = true) :
    parseMantissa l = some ((parseNat l : ℚ)) := by
  unfold parseMantissa
  rw [takeWhile_eq_self_of h, dropWhile_eq_nil_of h]
  simp [hne]

theorem pyFloatOfChars_digits {l : List Char} (hne : l ≠ [])
    (hdig : ∀ c ∈ l, c ∈ decDigits) :
    pyFloatOfChars l = some ((parseNat l : ℚ)) := by
  obtain ⟨c, cs, e⟩ := List.exists_cons_of_ne_nil hne
  subst e
  have hc := decDigits_facts (hdig c (List.mem_cons_self _ _))
  have hsplit : splitOnExp (c :: cs) = (c :: cs, none) :=
    splitOnExp_no_exp (fun d hd => ⟨(decDigits_facts (hdig d hd)).2.2.2.1,
      (decDigits_facts (hdig d hd)).2.2.2.2.1⟩)
  have hmant : parseMantissa (c :: cs) = some ((parseNat (c :: cs) : ℚ)) :=
    parseMantissa_digits (by simp) (fun d hd => (decDigits_facts (hdig d hd)).1)
  simp [pyFloatOfChars, hc.2.2.2.2.2.1, hc.2.2.2.2.2.2.1, hsplit, hmant]

theorem pyFloatOfChars_neg_digits {l : List Char} (hne : l ≠ [])
    (hdig : ∀ c ∈ l, c ∈ decDigits) :
    pyFloatOfChars ('-' :: l) = some (-((parseNat l : ℚ))) := by
  have hsplit : splitOnExp l = (l, none) :=
    splitOnExp_no_exp (fun d hd => ⟨(decDigits_facts (hdig d hd)).2.2.2.1,
      (decDigits_facts (hdig d hd)).2.2.2.2.1⟩)
  have hmant : parseMantissa l = some ((parseNat l : ℚ)) :=
    parseMantissa_digits hne (fun d hd => (decDigits_facts (hdig d hd)).1)
  simp [pyFloatOfChars, hsplit, hmant]

theorem pyFloatOfChars_intRender (n : Int) :
    pyFloatOfChars (intRender n) = some ((n : ℚ)) := by
  obtain ⟨h1, h2, h3⟩ := natRender_spec n.natAbs
  by_cases hn : n < 0
  · rw [intRender, if_pos hn, pyFloatOfChars_neg_digits h2 h3, h1]
    have hcast : ((n.natAbs : ℚ)) = -(n : ℚ) := by
      rw [Int.cast_natAbs, Int.cast_abs]
      exact abs_of_neg (by exact_mod_cast hn)
    rw [hcast, neg_neg]
  · rw [intRender, if_neg hn, pyFloatOfChars_digits h2 h3, h1]
    have hcast : ((n.natAbs : ℚ)) = (n : ℚ) := by
      rw [Int.cast_natAbs, Int.cast_abs]
      exact abs_of_nonneg (by exact_mod_cast not_lt.mp hn)
    rw [hcast]

/-- A rendered number, whose characters are digits, sign or point, is
not one of the sentinel literals. -/
theorem render_ne_sentinels {l : List Char}
    (h : ∀ c ∈ l, c ∈ decDigits ∨ c = '-' ∨ c = '.') :
    String.mk l ≠ "autocalculate" ∧ String.mk l ≠ "autosize" ∧
      String.mk l ≠ "useweatherfile" := by
  refine ⟨?_, ?_, ?_⟩
  · intro he
    have hd : l = ("autocalculate" : String).data := congrArg String.data he
    have hm := h 'a' (by rw [hd]; decide)
    revert hm
    decide
  · intro he
    have hd : l = ("autosize" : String).data := congrArg String.data he
    have hm := h 'a' (by rw [hd]; decide)
    revert hm
    decide
  · intro he
    have hd : l = ("useweatherfile" : String).data := congrArg String.data he
    have hm := h 'u' (by rw [hd]; decide)
    revert hm
    decide

/-- Reduction of deserialize to its typed tail on an already-prepared
value: no surrounding whitespace, lower-case fixed, non-empty and within
the length limit. -/
theorem deserialize_prepared (fd : FieldDescriptor) (l : List Char)
    (hne : l ≠ []) (hnospace : ∀ c ∈ l, pyIsSpace c = false)
    (hlow : l.map pyLowerChar = l) (hlen : l.length < 100) :
    deserialize fd (.pstr (String.mk l)) = deserializeTyped fd (.pstr (String.mk l)) := by
  simp only [deserialize, mk_data]
  rw [normalizeChars_eq_self hnospace]
  rw [if_neg hne]
  have hs2 : (if hasTag fd.tags "retaincase" = true then l else l.map pyLowerChar) = l := by
    by_cases hrc : hasTag fd.tags "retaincase" = true <;> simp [hrc, hlow]
  rw [hs2, if_neg (by omega : ¬(100 ≤ l.length))]

theorem deserializeTyped_num (fd : FieldDescriptor) (l : List Char)
    (hns : String.mk l ≠ "autocalculate" ∧ String.mk l ≠ "autosize" ∧
      String.mk l ≠ "useweatherfile") :
    (detailed_type fd = .ok "integer" →
      deserializeTyped fd (.pstr (String.mk l)) =
        match pyIntOfChars l with
        | some n => .ok (.dval (.pint n))
        | none => .error (.fieldValidation "Couldnt parse to integer.")) ∧
    (detailed_type fd = .ok "real" →
      deserializeTyped fd (.pstr (String.mk l)) =
        match pyFloatOfChars l with
        | some q => .ok (.dval (.preal q))
        | none => .error (.fieldValidation "Couldnt parse to float.")) := by
  constructor <;> intro hdt <;>
    simp [deserializeTyped, hdt, hns.1, hns.2.1, hns.2.2, pyInt, pyFloat, mk_data]

/-- deserialize on the decimal rendering of an integer, for fields of
detailed type integer and real. -/
theorem deserialize_numeric_render (fd : FieldDescriptor) (n : Int)
    (hlen : (intRender n).length < 100) :
    (detailed_type fd = .ok "integer" →
      deserialize fd (.pstr (String.mk (intRender n))) = .ok (.dval (.pint n))) ∧
    (detailed_type fd = .ok "real" →
      deserialize fd (.pstr (String.mk (intRender n))) = .ok (.dval (.preal ((n : ℚ))))) := by
  obtain ⟨hne, hmem⟩ := intRender_chars n
  have hnospace : ∀ c ∈ intRender n, pyIsSpace c = false := by
    intro c hc
    rcases hmem c hc with h | h
    · exact (decDigits_facts h).2.1
    · rw [h]; decide
  have hlow : (intRender n).map pyLowerChar = intRender n := by
    refine map_fixed ?_
    intro c hc
    rcases hmem c hc with h | h
    · exact (decDigits_facts h).2.2.1
    · rw [h]; decide
  have hprep := deserialize_prepared fd (intRender n) hne hnospace hlow hlen
  have hns := render_ne_sentinels
    (fun c hc => by rcases hmem c hc with h | h; exacts [Or.inl h, Or.inr (Or.inl h)])
  constructor <;> intro hdt
  · rw [hprep, (deserializeTyped_num fd _ hns).1 hdt, pyIntOfChars_intRender n]
  · rw [hprep, (deserializeTyped_num fd _ hns).2 hdt, pyFloatOfChars_intRender n]

theorem parseNat_acc (a : Nat) (l : List Char) :
    l.foldl (fun x c => x * 10 + digitVal c) a = a * 10 ^ l.length + parseNat l := by
  induction l generalizing a with
  | nil => simp [parseNat]
  | cons c cs ih =>
    have h1 := ih (a * 10 + digitVal c)
    have h2 := ih (digitVal c)
    simp only [List.foldl_cons]
    rw [h1]
    have hp : parseNat (c :: cs) = digitVal c * 10 ^ cs.length + parseNat cs := by
      unfold parseNat
      simp only [List.foldl_cons]
      rw [show 0 * 10 + digitVal c = digitVal c by ring]
      exact h2
    rw [List.length_cons, hp, pow_succ]
    ring

theorem parseNat_append (l1 l2 : List Char) :
    parseNat (l1 ++ l2) = parseNat l1 * 10 ^ l2.length + parseNat l2 := by
  unfold parseNat
  rw [List.foldl_append]
  exact parseNat_acc _ _

theorem parseNat_replicate_zero (j : Nat) (l : List Char) :
    parseNat (List.replicate j '0' ++ l) = parseNat l := by
  rw [parseNat_append]
  have hz : parseNat (List.replicate j '0') = 0 := by
    induction j with
    | zero => rfl
    | succ j ih =>
      rw [List.replicate_succ]
      unfold parseNat at ih ⊢
      simp only [List.foldl_cons]
      simpa [digitVal] using ih
  rw [hz]
  ring

theorem takeWhile_append_cons {p : Char → Bool} {l1 : List Char} {x : Char}
    {l2 : List Char} (h1 : ∀ c ∈ l1, p c = true) (hx : p x = false) :
    (l1 ++ x :: l2).takeWhile p = l1 ∧ (l1 ++ x :: l2).dropWhile p = x :: l2 := by
  induction l1 with
  | nil =>
    constructor
    · exact List.takeWhile_cons_of_neg (by simp [hx])
    · exact List.dropWhile_cons_of_neg (by simp [hx])
  | cons d ds ih =>
    obtain ⟨ih1, ih2⟩ := ih (fun c hc => h1 c (List.mem_cons_of_mem _ hc))
    have hd : p d = true := h1 d (List.mem_cons_self _ _)
    constructor
    · simpa [List.takeWhile_cons_of_pos hd] using ih1
    · simpa [List.dropWhile_cons_of_pos hd] using ih2

theorem parseMantissa_ipfp {ip fp : List Char} (hip : ∀ c ∈ ip, c ∈ decDigits)
    (hfp : ∀ c ∈ fp, c ∈ decDigits) (hne : ip ≠ []) :
    parseMantissa (ip ++ '.' :: fp) =
      some ((parseNat ip : ℚ) + (parseNat fp : ℚ) / (10 : ℚ) ^ fp.length) := by
  obtain ⟨ht, hd⟩ := takeWhile_append_cons
    (fun c hc => (decDigits_facts (hip c hc)).1) (by decide : Char.isDigit '.' = false)
  unfold parseMantissa
  rw [ht, hd]
  simp [all_isDigit_of_decDigits hfp, hne]

/-- The digit string of the rational m / 10^k, zero-padded so that at
least one digit lands left of the point. -/
def decDigitsOf (m : Int) (k : Nat) : List Char :=
  List.replicate (k + 1 - (natRender m.natAbs).length) '0' ++ natRender m.natAbs

/-- A decimal rendering of the rational m / 10^k: optional sign, integer
part, point, k fractional digits. -/
def decRender (m : Int) (k : Nat) : List Char :=
  (if m < 0 then ['-'] else []) ++
    (decDigitsOf m k).take ((decDigitsOf m k).length - k) ++
    '.' :: (decDigitsOf m k).drop ((decDigitsOf m k).length - k)

theorem decDigitsOf_spec (m : Int) (k : Nat) :
    (∀ c ∈ decDigitsOf m k, c ∈ decDigits) ∧
      parseNat (decDigitsOf m k) = m.natAbs ∧ k + 1 ≤ (decDigitsOf m k).length := by
  obtain ⟨h1, h2, h3⟩ := natRender_spec m.natAbs
  refine ⟨?_, ?_, ?_⟩
  · intro c hc
    rcases List.mem_append.mp hc with hc | hc
    · rw [List.eq_of_mem_replicate hc]; decide
    · exact h3 c hc
  · rw [decDigitsOf, parseNat_replicate_zero, h1]
  · rw [decDigitsOf, List.length_append, List.length_replicate]
    have hpos : 1 ≤ (natRender m.natAbs).length := List.length_pos.mpr h2
    omega

theorem pyFloatOfChars_pospath {c : Char} {cs : List Char} {q : ℚ}
    (hm : c ≠ '-') (hp : c ≠ '+')
    (hsplit : splitOnExp (c :: cs) = (c :: cs, none))
    (hmant : parseMantissa (c :: cs) = some q) :
    pyFloatOfChars (c :: cs) = some q := by
  simp [pyFloatOfChars, hm, hp, hsplit, hmant]

theorem pyFloatOfChars_negpath {l : List Char} {q : ℚ}
    (hsplit : splitOnExp l = (l, none))
    (hmant : parseMantissa l = some q) :
    pyFloatOfChars ('-' :: l) = some (-q) := by
  simp [pyFloatOfChars, hsplit, hmant]

theorem pyFloatOfChars_decRender (m : Int) (k : Nat) :
    pyFloatOfChars (decRender m k) = some ((m : ℚ) / (10 : ℚ) ^ k) := by
  obtain ⟨hmem, hparse, hlen⟩ := decDigitsOf_spec m k
  set ds := decDigitsOf m k with hds
  set ip := ds.take (ds.length - k) with hip
  set fp := ds.drop (ds.length - k) with hfp
  have hipmem : ∀ c ∈ ip, c ∈ decDigits := fun c hc => hmem c (List.take_subset _ _ hc)
  have hfpmem : ∀ c ∈ fp, c ∈ decDigits := fun c hc => hmem c (List.drop_subset _ _ hc)
  have hiplen : ip.length = ds.length - k := by
    rw [hip, List.length_take]
    omega
  have hipne : ip ≠ [] := by
    intro he
    rw [he] at hiplen
    simp at hiplen
    omega
  have hfplen : fp.length = k := by
    rw [hfp, List.length_drop]
    omega
  have hifds : ip ++ fp = ds := List.take_append_drop _ _
  have hval : parseNat ip * 10 ^ k + parseNat fp = m.natAbs := by
    have happ := parseNat_append ip fp
    rw [hifds, hparse, hfplen] at happ
    omega
  have hmant : parseMantissa (ip ++ '.' :: fp) =
      some ((parseNat ip : ℚ) + (parseNat fp : ℚ) / (10 : ℚ) ^ fp.length) :=
    parseMantissa_ipfp hipmem hfpmem hipne
  have hsplit : splitOnExp (ip ++ '.' :: fp) = (ip ++ '.' :: fp, none) := by
    refine splitOnExp_no_exp ?_
    intro c hc
    rcases List.mem_append.mp hc with hc | hc
    · have hcf := decDigits_facts (hipmem c hc)
      exact ⟨hcf.2.2.2.1, hcf.2.2.2.2.1⟩
    · rcases List.mem_cons.mp hc with hc | hc
      · rw [hc]; exact ⟨by decide, by decide⟩
      · have hcf := decDigits_facts (hfpmem c hc)
        exact ⟨hcf.2.2.2.1, hcf.2.2.2.2.1⟩
  have hq : (parseNat ip : ℚ) + (parseNat fp : ℚ) / (10 : ℚ) ^ k =
      (m.natAbs : ℚ) / (10 : ℚ) ^ k := by
    have hk0 : ((10 : ℚ) ^ k) ≠ 0 := pow_ne_zero _ (by norm_num)
    field_simp
    exact_mod_cast hval
  by_cases hm : m < 0
  · rw [decRender, if_pos hm, ← hds, ← hip, ← hfp, List.singleton_append,
      List.cons_append]
    rw [pyFloatOfChars_negpath hsplit hmant]
    simp only [Option.some.injEq]
    rw [hfplen, hq]
    have hcast : ((m.natAbs : ℚ)) = -(m : ℚ) := by
      rw [Int.cast_natAbs, Int.cast_abs]
      exact abs_of_neg (by exact_mod_cast hm)
    rw [hcast]
    ring
  · obtain ⟨c, cs, e⟩ := List.exists_cons_of_ne_nil hipne
    have hcf := decDigits_facts (hipmem c (by rw [e]; exact List.mem_cons_self _ _))
    rw [decRender, if_neg hm, ← hds, ← hip, ← hfp, List.nil_append]
    rw [e, List.cons_append] at hsplit hmant ⊢
    rw [pyFloatOfChars_pospath hcf.2.2.2.2.2.1 hcf.2.2.2.2.2.2.1 hsplit hmant]
    simp only [Option.some.injEq]
    rw [← e, hfplen, hq]
    have hcast : ((m.natAbs : ℚ)) = (m : ℚ) := by
      rw [Int.cast_natAbs, Int.cast_abs]
      exact abs_of_nonneg (by exact_mod_cast not_lt.mp hm)
    rw [hcast]

theorem decRender_chars (m : Int) (k : Nat) :
    decRender m k ≠ [] ∧ ∀ c ∈ decRender m k, c ∈ decDigits ∨ c = '-' ∨ c = '.' := by
  obtain ⟨hmem, _, _⟩ := decDigitsOf_spec m k
  constructor
  · rw [decRender]
    by_cases hm : m < 0 <;> simp [hm]
  · intro c hc
    rw [decRender] at hc
    rcases List.mem_append.mp hc with hc | hc
    · rcases List.mem_append.mp hc with hc | hc
      · by_cases hm : m < 0
        · rw [if_pos hm] at hc
          exact Or.inr (Or.inl (List.mem_singleton.mp hc))
        · rw [if_neg hm] at hc
          simp at hc
      · exact Or.inl (hmem c (List.take_subset _ _ hc))
    · rcases List.mem_cons.mp hc with hc | hc
      · exact Or.inr (Or.inr hc)
      · exact Or.inl (hmem c (List.drop_subset _ _ hc))

theorem deserialize_real_decimal (fd : FieldDescriptor) (m : Int) (k : Nat)
    (hdt : detailed_type fd = .ok "real")
    (hlen : (decRender m k).length < 100) :
    deserialize fd (.pstr (String.mk (decRender m k))) =
      .ok (.dval (.preal ((m : ℚ) / (10 : ℚ) ^ k))) := by
  obtain ⟨hne, hmem⟩ := decRender_chars m k
  have hnospace : ∀ c ∈ decRender m k, pyIsSpace c = false := by
    intro c hc
    rcases hmem c hc with h | h | h
    · exact (decDigits_facts h).2.1
    · rw [h]; decide
    · rw [h]; decide
  have hlow : (decRender m k).map pyLowerChar = decRender m k := by
    refine map_fixed ?_
    intro c hc
    rcases hmem c hc with h | h | h
    · exact (decDigits_facts h).2.2.1
    · rw [h]; decide
    · rw [h]; decide
  have hns := render_ne_sentinels hmem
  rw [deserialize_prepared fd _ hne hnospace hlow hlen,
    (deserializeTyped_num fd _ hns).2 hdt, pyFloatOfChars_decRender]

theorem deserialize_sentinel_one (fd : FieldDescriptor) (dt : String)
    (hdt : detailed_type fd = .ok dt) (hnum : dt = "integer" ∨ dt = "real")
    (l : List Char) (hne : l ≠ []) (hnospace : ∀ c ∈ l, pyIsSpace c = false)
    (hlow : l.map pyLowerChar = l) (hlen : l.length < 100)
    (hsent : String.mk l = "autocalculate" ∨ String.mk l = "autosize" ∨
      String.mk l = "useweatherfile") :
    deserialize fd (.pstr (String.mk l)) = .ok (.dval (.pstr (String.mk l))) := by
  rw [deserialize_prepared fd l hne hnospace hlow hlen]
  have hc : PyVal.pstr (String.mk l) = PyVal.pstr "autocalculate" ∨
      PyVal.pstr (String.mk l) = PyVal.pstr "autosize" ∨
      PyVal.pstr (String.mk l) = PyVal.pstr "useweatherfile" := by
    rcases hsent with h | h | h
    · exact Or.inl (by rw [h])
    · exact Or.inr (Or.inl (by rw [h]))
    · exact Or.inr (Or.inr (by rw [h]))
  rcases hnum with rfl | rfl <;>
    · simp only [deserializeTyped, hdt]
      rw [if_pos (by simp), if_pos hc]

/-- C5 (amended): the numeric round trip holds for every rendering that
stays under the 100-character limit — on a field of detailed type
integer, deserialize of the decimal rendering of any integer n (negative
included) with fewer than 100 characters yields exactly n; on a field of
detailed type real, the rendering of any integer, and any decimal
rendering m / 10^k, yields the exact value (floats modelled as exact
rationals); and the sentinel literals pass through verbatim as text for
both numeric kinds. Renderings of 100 characters or more (integers of
huge magnitude) are instead rejected by the length check
(C5_counterexample). -/
theorem C5_numeric_round_trip :
    (∀ (fd : FieldDescriptor) (n : Int), detailed_type fd = .ok "integer" →
      (intRender n).length < 100 →
      deserialize fd (.pstr (String.mk (intRender n))) = .ok (.dval (.pint n))) ∧
    (∀ (fd : FieldDescriptor) (n : Int), detailed_type fd = .ok "real" →
      (intRender n).length < 100 →
      deserialize fd (.pstr (String.mk (intRender n))) =
        .ok (.dval (.preal ((n : ℚ))))) ∧
    (∀ (fd : FieldDescriptor) (m : Int) (k : Nat), detailed_type fd = .ok "real" →
      (decRender m k).length < 100 →
      deserialize fd (.pstr (String.mk (decRender m k))) =
        .ok (.dval (.preal ((m : ℚ) / (10 : ℚ) ^ k)))) ∧
    (∀ (fd : FieldDescriptor) (dt : String), detailed_type fd = .ok dt →
      (dt = "integer" ∨ dt = "real") →
      ∀ lit, lit ∈ (["autocalculate", "autosize", "useweatherfile"] : List String) →
        deserialize fd (.pstr lit) = .ok (.dval (.pstr lit))) := by
  refine ⟨?_, ?_, ?_, ?_⟩
  · intro fd n hdt hlen
    exact (deserialize_numeric_render fd n hlen).1 hdt
  · intro fd n hdt hlen
    exact (deserialize_numeric_render fd n hlen).2 hdt
  · intro fd m k hdt hlen
    exact deserialize_real_decimal fd m k hdt hlen
  · intro fd dt hdt hnum lit hlit
    fin_cases hlit
    · exact deserialize_sentinel_one fd dt hdt hnum ("autocalculate" : String).data
        (by decide) (by decide) (by decide) (by decide) (Or.inl rfl)
    · exact deserialize_sentinel_one fd dt hdt hnum ("autosize" : String).data
        (by decide) (by decide) (by decide) (by decide) (Or.inr (Or.inl rfl))
    · exact deserialize_sentinel_one fd dt hdt hnum ("useweatherfile" : String).data
        (by decide) (by decide) (by decide) (by decide) (Or.inr (Or.inr rfl))

theorem C5_numeric_round_trip_witness :
    deserialize ⟨0, "N", none, [("type", ["integer"])]⟩
      (.pstr (String.mk (intRender (-12345)))) = .ok (.dval (.pint (-12345))) ∧
    deserialize ⟨0, "N", none, []⟩ (.pstr (String.mk (intRender (-12345)))) =
      .ok (.dval (.preal (((-12345 : Int) : ℚ)))) ∧
    deserialize ⟨0, "N", none, []⟩ (.pstr (String.mk (decRender (-25) 1))) =
      .ok (.dval (.preal (((-25 : Int) : ℚ) / (10 : ℚ) ^ (1 : Nat)))) ∧
    deserialize ⟨0, "N", none, []⟩ (.pstr "autosize") = .ok (.dval (.pstr "autosize")) :=
  ⟨C5_numeric_round_trip.1 _ (-12345) (by decide) (by decide),
   C5_numeric_round_trip.2.1 _ (-12345) (by decide) (by decide),
   C5_numeric_round_trip.2.2.1 _ (-25) 1 (by decide) (by decide),
   C5_numeric_round_trip.2.2.2 _ "real" (by decide) (Or.inr rfl) "autosize" (by decide)⟩

set_option maxRecDepth 100000 in
/-- C5 counterexample: the claim quantifies over every integer including
large magnitudes, but the decimal rendering of 10^99 has exactly 100
characters, so deserialize rejects it with the length validation error
instead of returning a value numerically equal to it. -/
theorem C5_counterexample :
    (intRender ((10 : Int) ^ 99)).length = 100 ∧
    deserialize ⟨0, "N", none, [("type", ["integer"])]⟩
      (.pstr (String.mk (intRender ((10 : Int) ^ 99)))) =
      .error (.fieldValidation "Field has more than 100 characters which is the limit.") := by
  exact ⟨by decide, by decide⟩

/-! ### Catalogue link resolution (oplus/idf/idd.py) -/

/-- Modelled from the spec: the idf FieldDescriptor, of which the link
pass uses only the Tag Store contract of section 4.1 (the idf field
descriptor module itself is outside the provided sources): a field owns
a tag store queried through has_tag and get_tag. -/
structure IdfFieldDescriptor where
  tags : Tags
deriving DecidableEq, Repr

/-- has of the Tag Store contract. -/
def IdfFieldDescriptor.has_tag (fd : IdfFieldDescriptor) (ref : String) : Bool :=
  hasTag fd.tags ref

/-- get of the Tag Store contract: ordered values, empty if absent. -/
def IdfFieldDescriptor.get_tag (fd : IdfFieldDescriptor) (ref : String) : List String :=
  getTag fd.tags ref

/-- Modelled from the spec: the idf TableDescriptor (record descriptor),
identified by its unique name — table_ref / table_name is the identity,
case preserved; lower-casing for keying is done by the Catalogue, which
owns case-insensitive uniqueness (sections 3 and 6). -/
structure IdfTableDescriptor where
  table_ref : String
  field_descriptors : List IdfFieldDescriptor
deriving DecidableEq, Repr

/-- One bucket of a Link Relation Table: the ordered (record descriptor,
field index) pairs registered under one lower-cased name. -/
abbrev LinkBucket := List (IdfTableDescriptor × Nat)

/-- A Link Relation Table: a Python dict from lower-cased name to bucket,
insertion-ordered. -/
abbrev LinkMap := List (String × LinkBucket)

def linkMapGet? (m : LinkMap) (k : String) : Option LinkBucket :=
  match m.find? (fun p => p.1 = k) with
  | some p => some p.2
  | none => none

/-- The bucket under a key, empty when the key is absent. -/
def linkMapBucket (m : LinkMap) (k : String) : LinkBucket :=
  match linkMapGet? m k with
  | none => []
  | some l => l

/-- The two statements of _link's loop body (idd.py lines 261-263 and
267-269): register the key with an empty bucket if new, then append the
pair to its bucket. -/
def linkMapAppend (m : LinkMap) (k : String) (v : IdfTableDescriptor × Nat) : LinkMap :=
  match m with
  | [] => [(k, [v])]
  | (k1, vs) :: rest =>
    if k1 = k then (k1, vs ++ [v]) :: rest else (k1, vs) :: linkMapAppend rest k v

theorem mem_linkMapAppend_self (m : LinkMap) (k : String) (v : IdfTableDescriptor × Nat) :
    v ∈ linkMapBucket (linkMapAppend m k v) k := by
  induction m with
  | nil => simp [linkMapAppend, linkMapBucket, linkMapGet?, List.find?]
  | cons p rest ih =>
    obtain ⟨k1, vs⟩ := p
    by_cases hk : k1 = k
    · subst hk
      simp [linkMapAppend, linkMapBucket, linkMapGet?, List.find?]
    · simpa [linkMapAppend, hk, linkMapBucket, linkMapGet?, List.find?] using ih

theorem mem_linkMapAppend_preserve {m : LinkMap} {k : String}
    {v : IdfTableDescriptor × Nat} (k2 : String) (v2 : IdfTableDescriptor × Nat)
    (h : v ∈ linkMapBucket m k) :
    v ∈ linkMapBucket (linkMapAppend m k2 v2) k := by
  induction m with
  | nil => simp [linkMapBucket, linkMapGet?, List.find?] at h
  | cons p rest ih =>
    obtain ⟨k1, vs⟩ := p
    by_cases hk2 : k1 = k2
    · subst hk2
      by_cases hk : k1 = k
      · subst hk
        simp [linkMapBucket, linkMapGet?, List.find?] at h
        simp [linkMapAppend, linkMapBucket, linkMapGet?, List.find?]
        exact Or.inl h
      · simp [linkMapBucket, linkMapGet?, List.find?, hk] at h
        simpa [linkMapAppend, linkMapBucket, linkMapGet?, List.find?, hk] using h
    · by_cases hk : k1 = k
      · subst hk
        simp [linkMapBucket, linkMapGet?, List.find?] at h
        simpa [linkMapAppend, hk2, linkMapBucket, linkMapGet?, List.find?] using h
      · simp [linkMapBucket, linkMapGet?, List.find?, hk] at h
        simpa [linkMapAppend, hk2, linkMapBucket, linkMapGet?, List.find?, hk] using ih h

theorem bucket_foldl_preserve {refs : List String} {m : LinkMap} {k : String}
    {v w : IdfTableDescriptor × Nat}
    (h : v ∈ linkMapBucket m k) :
    v ∈ linkMapBucket
      (refs.foldl (fun m2 s => linkMapAppend m2 (pyLowerStr s) w) m) k := by
  induction refs generalizing m with
  | nil => exact h
  | cons s rest ih =>
    exact ih (mem_linkMapAppend_preserve _ _ h)

theorem bucket_foldl_self {refs : List String} {r : String}
    {w : IdfTableDescriptor × Nat} (hr : r ∈ refs) (m : LinkMap) :
    w ∈ linkMapBucket
      (refs.foldl (fun m2 s => linkMapAppend m2 (pyLowerStr s) w) m) (pyLowerStr r) := by
  induction refs generalizing m with
  | nil => cases hr
  | cons s rest ih =>
    rcases List.mem_cons.mp hr with h | h
    · subst h
      rw [List.foldl_cons]
      exact bucket_foldl_preserve (mem_linkMapAppend_self m (pyLowerStr r) w)
    · rw [List.foldl_cons]
      exact ih h _

/-- _link's per-field work (idd.py lines 258-269): every "reference" tag
value feeds the pointed table and every "object-list" tag value the
pointing table, each under its lower-cased name. -/
def linkOneField (rd : IdfTableDescriptor) (i : Nat) (fd : IdfFieldDescriptor)
    (acc : LinkMap × LinkMap) : LinkMap × LinkMap :=
  let pointed := if fd.has_tag "reference" then
      (fd.get_tag "reference").foldl
        (fun m r => linkMapAppend m (pyLowerStr r) (rd, i)) acc.1
    else acc.1
  let pointing := if fd.has_tag "object-list" then
      (fd.get_tag "object-list").foldl
        (fun m r => linkMapAppend m (pyLowerStr r) (rd, i)) acc.2
    else acc.2
  (pointed, pointing)

/-- The enumerate loop over one record descriptor's fields. -/
def linkFields (rd : IdfTableDescriptor) :
    List IdfFieldDescriptor → Nat → LinkMap × LinkMap → LinkMap × LinkMap
  | [], _, acc => acc
  | fd :: rest, i, acc => linkFields rd rest (i + 1) (linkOneField rd i fd acc)

/-- _link (idd.py lines 254-269): iterate every record descriptor's
fields in declaration order, building the two Link Relation Tables. -/
def idd_link (tds : List IdfTableDescriptor) : LinkMap × LinkMap :=
  tds.foldl (fun acc rd => linkFields rd rd.field_descriptors 0 acc) ([], [])

/-- The catalogue state the link lookup API reads. -/
structure IddLinks where
  pointed : LinkMap
  pointing : LinkMap
deriving DecidableEq, Repr

def buildIdd (tds : List IdfTableDescriptor) : IddLinks :=
  ⟨(idd_link tds).1, (idd_link tds).2⟩

/-- pointed_links (idd.py lines 100-116): lower-case the queried name;
when it is absent log a diagnostic and return [], else the bucket. -/
def pointed_links (idd : IddLinks) (link_insensitive_name : String) : LinkBucket :=
  match linkMapGet? idd.pointed (pyLowerStr link_insensitive_name) with
  | none => []
  | some l => l

/-- pointing_links (idd.py lines 118-134): symmetric lookup. -/
def pointing_links (idd : IddLinks) (link_insensitive_name : String) : LinkBucket :=
  match linkMapGet? idd.pointing (pyLowerStr link_insensitive_name) with
  | none => []
  | some l => l

theorem linkOneField_preserve (rd : IdfTableDescriptor) (i : Nat)
    (fd : IdfFieldDescriptor) (acc : LinkMap × LinkMap) (k : String)
    (v : IdfTableDescriptor × Nat) :
    (v ∈ linkMapBucket acc.1 k → v ∈ linkMapBucket (linkOneField rd i fd acc).1 k) ∧
    (v ∈ linkMapBucket acc.2 k → v ∈ linkMapBucket (linkOneField rd i fd acc).2 k) := by
  constructor <;> intro h <;> simp only [linkOneField]
  · by_cases ht : fd.has_tag "reference" = true
    · simpa [ht] using bucket_foldl_preserve h
    · simpa [ht] using h
  · by_cases ht : fd.has_tag "object-list" = true
    · simpa [ht] using bucket_foldl_preserve h
    · simpa [ht] using h

theorem linkOneField_insert (rd : IdfTableDescriptor) (i : Nat)
    (fd : IdfFieldDescriptor) (acc : LinkMap × LinkMap) :
    (∀ W ∈ fd.get_tag "reference",
      (rd, i) ∈ linkMapBucket (linkOneField rd i fd acc).1 (pyLowerStr W)) ∧
    (∀ V ∈ fd.get_tag "object-list",
      (rd, i) ∈ linkMapBucket (linkOneField rd i fd acc).2 (pyLowerStr V)) := by
  constructor <;> intro W hW <;> simp only [linkOneField]
  · have ht : fd.has_tag "reference" = true :=
      hasTag_of_getTag_ne (fun he => by rw [IdfFieldDescriptor.get_tag] at hW; simp [he] at hW)
    simpa [ht] using bucket_foldl_self hW acc.1
  · have ht : fd.has_tag "object-list" = true :=
      hasTag_of_getTag_ne (fun he => by rw [IdfFieldDescriptor.get_tag] at hW; simp [he] at hW)
    simpa [ht] using bucket_foldl_self hW acc.2

theorem linkFields_preserve (rd : IdfTableDescriptor) :
    ∀ (fds : List IdfFieldDescriptor) (i0 : Nat) (acc : LinkMap × LinkMap)
      (k : String) (v : IdfTableDescriptor × Nat),
      (v ∈ linkMapBucket acc.1 k →
        v ∈ linkMapBucket (linkFields rd fds i0 acc).1 k) ∧
      (v ∈ linkMapBucket acc.2 k →
        v ∈ linkMapBucket (linkFields rd fds i0 acc).2 k) := by
  intro fds
  induction fds with
  | nil => intro i0 acc k v; exact ⟨id, id⟩
  | cons f rest ih =>
    intro i0 acc k v
    constructor <;> intro h
    · exact (ih (i0 + 1) (linkOneField rd i0 f acc) k v).1
        ((linkOneField_preserve rd i0 f acc k v).1 h)
    · exact (ih (i0 + 1) (linkOneField rd i0 f acc) k v).2
        ((linkOneField_preserve rd i0 f acc k v).2 h)

theorem linkFields_insert (rd : IdfTableDescriptor) :
    ∀ (fds : List IdfFieldDescriptor) (i0 : Nat) (acc : LinkMap × LinkMap)
      (j : Nat) (fd : IdfFieldDescriptor), fds.get? j = some fd →
      (∀ W ∈ fd.get_tag "reference",
        (rd, i0 + j) ∈ linkMapBucket (linkFields rd fds i0 acc).1 (pyLowerStr W)) ∧
      (∀ V ∈ fd.get_tag "object-list",
        (rd, i0 + j) ∈ linkMapBucket (linkFields rd fds i0 acc).2 (pyLowerStr V)) := by
  intro fds
  induction fds with
  | nil => intro i0 acc j fd hj; simp at hj
  | cons f rest ih =>
    intro i0 acc j fd hj
    cases j with
    | zero =>
      rw [List.get?_cons_zero, Option.some.injEq] at hj
      subst hj
      constructor <;> intro W hW
      · exact (linkFields_preserve rd rest (i0 + 1) (linkOneField rd i0 f acc)
          (pyLowerStr W) (rd, i0 + 0)).1
          (by
            rw [Nat.add_zero]
            exact (linkOneField_insert rd i0 f acc).1 W hW)
      · exact (linkFields_preserve rd rest (i0 + 1) (linkOneField rd i0 f acc)
          (pyLowerStr W) (rd, i0 + 0)).2
          (by
            rw [Nat.add_zero]
            exact (linkOneField_insert rd i0 f acc).2 W hW)
    | succ j2 =>
      rw [List.get?_cons_succ] at hj
      have harith : i0 + 1 + j2 = i0 + (j2 + 1) := by omega
      constructor <;> intro W hW
      · have hres := (ih (i0 + 1) (linkOneField rd i0 f acc) j2 fd hj).1 W hW
        rwa [harith] at hres
      · have hres := (ih (i0 + 1) (linkOneField rd i0 f acc) j2 fd hj).2 W hW
        rwa [harith] at hres

theorem foldl_tds_preserve (l : List IdfTableDescriptor) (acc : LinkMap × LinkMap)
    (k : String) (v : IdfTableDescriptor × Nat)
    (h : v ∈ linkMapBucket acc.1 k) :
    v ∈ linkMapBucket
      (l.foldl (fun acc2 r => linkFields r r.field_descriptors 0 acc2) acc).1 k := by
  induction l generalizing acc with
  | nil => exact h
  | cons td rest ih =>
    rw [List.foldl_cons]
    exact ih _ ((linkFields_preserve td td.field_descriptors 0 acc k v).1 h)

theorem foldl_tds_preserve2 (l : List IdfTableDescriptor) (acc : LinkMap × LinkMap)
    (k : String) (v : IdfTableDescriptor × Nat)
    (h : v ∈ linkMapBucket acc.2 k) :
    v ∈ linkMapBucket
      (l.foldl (fun acc2 r => linkFields r r.field_descriptors 0 acc2) acc).2 k := by
  induction l generalizing acc with
  | nil => exact h
  | cons td rest ih =>
    rw [List.foldl_cons]
    exact ih _ ((linkFields_preserve td td.field_descriptors 0 acc k v).2 h)

theorem idd_link_insert {tds : List IdfTableDescriptor} {rd : IdfTableDescriptor}
    (hrd : rd ∈ tds) {i : Nat} {fd : IdfFieldDescriptor}
    (hfd : rd.field_descriptors.get? i = some fd) :
    (∀ W ∈ fd.get_tag "reference",
      (rd, i) ∈ linkMapBucket (idd_link tds).1 (pyLowerStr W)) ∧
    (∀ V ∈ fd.get_tag "object-list",
      (rd, i) ∈ linkMapBucket (idd_link tds).2 (pyLowerStr V)) := by
  rw [idd_link]
  suffices hgen : ∀ (l : List IdfTableDescriptor) (acc : LinkMap × LinkMap),
      rd ∈ l →
      (∀ W ∈ fd.get_tag "reference",
        (rd, i) ∈ linkMapBucket
          (l.foldl (fun acc2 r => linkFields r r.field_descriptors 0 acc2) acc).1
          (pyLowerStr W)) ∧
      (∀ V ∈ fd.get_tag "object-list",
        (rd, i) ∈ linkMapBucket
          (l.foldl (fun acc2 r => linkFields r r.field_descriptors 0 acc2) acc).2
          (pyLowerStr V)) by
    exact hgen tds ([], []) hrd
  intro l
  induction l with
  | nil => intro acc h; cases h
  | cons td rest ih =>
    intro acc hmem
    rcases List.mem_cons.mp hmem with heq | hmem2
    · subst heq
      constructor <;> intro W hW <;> rw [List.foldl_cons]
      · have hstart := (linkFields_insert rd rd.field_descriptors 0 acc i fd hfd).1 W hW
        rw [Nat.zero_add] at hstart
        exact foldl_tds_preserve rest _ _ _ hstart
      · have hstart := (linkFields_insert rd rd.field_descriptors 0 acc i fd hfd).2 W hW
        rw [Nat.zero_add] at hstart
        exact foldl_tds_preserve2 rest _ _ _ hstart
    · constructor <;> intro W hW <;> rw [List.foldl_cons]
      · exact (ih _ hmem2).1 W hW
      · exact (ih _ hmem2).2 W hW

theorem pointed_links_eq (idd : IddLinks) (name : String) :
    pointed_links idd name = linkMapBucket idd.pointed (pyLowerStr name) := rfl

theorem pointing_links_eq (idd : IddLinks) (name : String) :
    pointing_links idd name = linkMapBucket idd.pointing (pyLowerStr name) := rfl

/-- C7: after the link pass, for every record descriptor of the
catalogue and every field of it, each "object-list" tag value V indexes
the field's (record descriptor, field index) pair in pointing_links V,
and symmetrically each "reference" tag value W indexes it in
pointed_links W — under every tag value, lower-cased by the table. The
statement quantifies over arbitrary record lists, so it holds whatever
the declaration order of referrer and referent in the source text. -/
theorem C7_link_table_symmetry (tds : List IdfTableDescriptor)
    (rd : IdfTableDescriptor) (i : Nat) (fd : IdfFieldDescriptor)
    (hrd : rd ∈ tds) (hfd : rd.field_descriptors.get? i = some fd) :
    (∀ V ∈ fd.get_tag "object-list", (rd, i) ∈ pointing_links (buildIdd tds) V) ∧
    (∀ W ∈ fd.get_tag "reference", (rd, i) ∈ pointed_links (buildIdd tds) W) := by
  obtain ⟨h1, h2⟩ := idd_link_insert hrd hfd
  constructor
  · intro V hV
    rw [pointing_links_eq]
    exact h2 V hV
  · intro W hW
    rw [pointed_links_eq]
    exact h1 W hW

theorem C7_link_table_symmetry_witness :
    ((⟨"RecordA", [⟨[("object-list", ["CategoryX"])]⟩]⟩ : IdfTableDescriptor), 0) ∈
      pointing_links (buildIdd
        [⟨"RecordA", [⟨[("object-list", ["CategoryX"])]⟩]⟩,
         ⟨"RecordB", [⟨[("reference", ["CategoryX", "CategoryY"])]⟩]⟩]) "CategoryX" ∧
    ((⟨"RecordB", [⟨[("reference", ["CategoryX", "CategoryY"])]⟩]⟩ : IdfTableDescriptor), 0) ∈
      pointed_links (buildIdd
        [⟨"RecordA", [⟨[("object-list", ["CategoryX"])]⟩]⟩,
         ⟨"RecordB", [⟨[("reference", ["CategoryX", "CategoryY"])]⟩]⟩]) "CategoryY" :=
  ⟨(C7_link_table_symmetry
      [⟨"RecordA", [⟨[("object-list", ["CategoryX"])]⟩]⟩,
       ⟨"RecordB", [⟨[("reference", ["CategoryX", "CategoryY"])]⟩]⟩]
      ⟨"RecordA", [⟨[("object-list", ["CategoryX"])]⟩]⟩ 0
      ⟨[("object-list", ["CategoryX"])]⟩ (by decide) (by decide)).1 "CategoryX" (by decide),
   (C7_link_table_symmetry
      [⟨"RecordA", [⟨[("object-list", ["CategoryX"])]⟩]⟩,
       ⟨"RecordB", [⟨[("reference", ["CategoryX", "CategoryY"])]⟩]⟩]
      ⟨"RecordB", [⟨[("reference", ["CategoryX", "CategoryY"])]⟩]⟩ 0
      ⟨[("reference", ["CategoryX", "CategoryY"])]⟩ (by decide) (by decide)).2
      "CategoryY" (by decide)⟩

/-- C8: pointed_links and pointing_links lower-case the queried name, so
any two case variants of a name give the same result; and a name whose
lower-cased form is not a key of the respective table returns the empty
list (with a logged diagnostic) rather than raising. -/
theorem C8_link_lookup (idd : IddLinks) :
    (∀ n1 n2 : String, pyLowerStr n1 = pyLowerStr n2 →
      pointed_links idd n1 = pointed_links idd n2 ∧
      pointing_links idd n1 = pointing_links idd n2) ∧
    (∀ n : String, linkMapGet? idd.pointed (pyLowerStr n) = none →
      pointed_links idd n = []) ∧
    (∀ n : String, linkMapGet? idd.pointing (pyLowerStr n) = none →
      pointing_links idd n = []) := by
  refine ⟨?_, ?_, ?_⟩
  · intro n1 n2 h
    constructor
    · rw [pointed_links_eq, pointed_links_eq, h]
    · rw [pointing_links_eq, pointing_links_eq, h]
  · intro n h
    simp [pointed_links_eq, linkMapBucket, h]
  · intro n h
    simp [pointing_links_eq, linkMapBucket, h]

theorem C8_link_lookup_witness :
    (pointed_links (⟨[("categoryx", [(⟨"RecordB", []⟩, 0)])], []⟩ : IddLinks)
        "CATEGORYX" =
      pointed_links (⟨[("categoryx", [(⟨"RecordB", []⟩, 0)])], []⟩ : IddLinks)
        "categoryx" ∧
     pointing_links (⟨[("categoryx", [(⟨"RecordB", []⟩, 0)])], []⟩ : IddLinks)
        "CATEGORYX" =
      pointing_links (⟨[("categoryx", [(⟨"RecordB", []⟩, 0)])], []⟩ : IddLinks)
        "categoryx") ∧
    pointed_links (⟨[("categoryx", [(⟨"RecordB", []⟩, 0)])], []⟩ : IddLinks)
      "nosuchname" = [] ∧
    pointing_links (⟨[("categoryx", [(⟨"RecordB", []⟩, 0)])], []⟩ : IddLinks)
      "nosuchname" = [] :=
  ⟨(C8_link_lookup ⟨[("categoryx", [(⟨"RecordB", []⟩, 0)])], []⟩).1
      "CATEGORYX" "categoryx" (by decide),
   (C8_link_lookup ⟨[("categoryx", [(⟨"RecordB", []⟩, 0)])], []⟩).2.1
      "nosuchname" (by decide),
   (C8_link_lookup ⟨[("categoryx", [(⟨"RecordB", []⟩, 0)])], []⟩).2.2
      "nosuchname" (by decide)⟩

/-- Python dict assignment on the catalogue: overwrite an existing key,
else append. -/
def dictSet : List (String × IdfTableDescriptor) → String → IdfTableDescriptor →
    List (String × IdfTableDescriptor)
  | [], k, v => [(k, v)]
  | (k1, v1) :: rest, k, v =>
    if k1 = k then (k, v) :: rest else (k1, v1) :: dictSet rest k v

/-- The record-header registration step of _parse (idd.py lines 219-221):
build the descriptor (table_ref is the record's name, case preserved —
see IdfTableDescriptor), assert that table_ref itself is not already a
key of the catalogue dict, then store the descriptor under its
lower-cased ref. The assert compares the case-preserved ref against
lower-cased keys. -/
def registerRecord (tds : List (String × IdfTableDescriptor)) (table_name : String) :
    Except PyErr (List (String × IdfTableDescriptor)) :=
  let rd : IdfTableDescriptor := ⟨table_name, []⟩
  if tds.any (fun p => p.1 = rd.table_ref) then
    .error (.assertionError "Record descriptor already registered.")
  else .ok (dictSet tds (pyLowerStr rd.table_ref) rd)

/-- C1 exhibit: registering the record name "Zone" twice passes the
assert of idd.py line 220 — it checks the case-preserved table_ref
against the lower-cased dict keys — and silently overwrites the entry;
a case variant "ZONE" also passes and overwrites; only a name that is
already fully lower-case, such as "zone", makes the assert fire. -/
theorem C1_duplicate_overwrites :
    registerRecord [] "Zone" = .ok [("zone", ⟨"Zone", []⟩)] ∧
    registerRecord [("zone", ⟨"Zone", []⟩)] "Zone" = .ok [("zone", ⟨"Zone", []⟩)] ∧
    registerRecord [("zone", ⟨"Zone", []⟩)] "ZONE" = .ok [("zone", ⟨"ZONE", []⟩)] ∧
    registerRecord [("zone", ⟨"zone", []⟩)] "zone" =
      .error (.assertionError "Record descriptor already registered.") := by
  exact ⟨by decide, by decide, by decide, by decide⟩
